import Mathlib

/-!
# Learn-Go-with-tests

A shallow embedding of the four exercises: `maps` (`src/maps/dictionary.go` and the helper
`assertError` of `src/maps/maps_test.go`), `pointererrors` (the wallet of
`src/pointererrors/wallet_test.go`), `helloworld` (`src/helloworld/hello.go`) and `sum`
(`src/sum/main.go`).  The definitions of all four come first, the theorems after them.

## The `maps` exercise

A Go `map[string]string` value is either the `nil` map or an initialised map.
Reading from and deleting in a `nil` map behave as on an empty map; assigning
to an entry of a `nil` map is a run-time panic.  An initialised map is
represented by an association list in which the first binding of a key is the
one in force; assignment and deletion drop every binding of the key, so each
list stands for exactly one map.

The methods have a map receiver, which Go passes by reference: a method that
writes is embedded as a function returning the dictionary afterwards together
with the returned `error`, inside `Except Panic`.
-/

namespace Maps

/-! ## Errors -/

/-- Go `type DictionaryErr string`. -/
structure DictionaryErr where
  text : String
deriving DecidableEq, Repr

/-- Go `func (e DictionaryErr) Error() string`. -/
def DictionaryErr.Error (e : DictionaryErr) : String := e.text

def ErrNotFound : DictionaryErr := ⟨"could not find the word you were looking for"⟩

def ErrWordExists : DictionaryErr := ⟨"cannot add word because it already exists"⟩

def ErrWordDoesNotExist : DictionaryErr := ⟨"cannot update word because it does not exist"⟩

/-- Go's `error` interface value as it occurs in this package: `nil` (here `none`) or a
`DictionaryErr`. -/
abbrev error := Option DictionaryErr

/-- Run-time panics of the Go map primitives. -/
inductive Panic
  | assignmentToEntryInNilMap
deriving DecidableEq, Repr

deriving instance DecidableEq for Except

/-! ## The map primitives of Go -/

/-- The binding in force for `word` in an association list: the first one. -/
def lookupEntry (word : String) : List (String × String) → Option String
  | [] => none
  | (k, v) :: rest => if k = word then some v else lookupEntry word rest

/-- Drop every binding of `word`. -/
def removeEntry (word : String) : List (String × String) → List (String × String)
  | [] => []
  | (k, v) :: rest => if k = word then removeEntry word rest else (k, v) :: removeEntry word rest

/-- Go `type Dictionary map[string]string`. -/
inductive Dictionary
  | nil
  | made (entries : List (String × String))
deriving DecidableEq, Repr

namespace Dictionary

def entries : Dictionary → List (String × String)
  | nil => []
  | made l => l

/-- The words that are keys of the dictionary. -/
def keys (d : Dictionary) : List String := d.entries.map Prod.fst

/-- Go `value, ok := d[word]`: the zero value and `false` when the key is absent
(also on a `nil` map). -/
def index (d : Dictionary) (word : String) : String × Bool :=
  match lookupEntry word d.entries with
  | some v => (v, true)
  | none => ("", false)

/-- Go `d[word] = definition`: panics on a `nil` map. -/
def assign : Dictionary → String → String → Except Panic Dictionary
  | nil, _, _ => .error Panic.assignmentToEntryInNilMap
  | made l, word, definition => .ok (made ((word, definition) :: removeEntry word l))

/-- Go builtin `delete(d, word)`: a no-op on a `nil` map and on an absent key. -/
def remove : Dictionary → String → Dictionary
  | nil, _ => nil
  | made l, word => made (removeEntry word l)

/-! ## The methods of `Dictionary` -/

/-- Go `func (d Dictionary) Search(word string) (string, error)`. -/
def Search (d : Dictionary) (word : String) : String × error :=
  let r := d.index word
  if !r.2 then
    ("", some ErrNotFound)
  else
    (r.1, none)

/-- Go `func (d Dictionary) Add(word, definition string) error`. -/
def Add (d : Dictionary) (word definition : String) : Except Panic (Dictionary × error) :=
  let err := (d.Search word).2
  if err = some ErrNotFound then
    match d.assign word definition with
    | .error p => .error p
    | .ok d' => .ok (d', none)
  else if err = none then
    .ok (d, some ErrWordExists)
  else
    .ok (d, err)

/-- Go `func (d Dictionary) Update(word, definition string) error`. -/
def Update (d : Dictionary) (word definition : String) : Except Panic (Dictionary × error) :=
  let err := (d.Search word).2
  if err = some ErrNotFound then
    .ok (d, some ErrWordDoesNotExist)
  else if err = none then
    match d.assign word definition with
    | .error p => .error p
    | .ok d' => .ok (d', none)
  else
    .ok (d, err)

/-- Go `func (d Dictionary) Delete(word string)`. -/
def Delete (d : Dictionary) (word : String) : Dictionary :=
  d.remove word

end Dictionary

/-! ## Sequences of mutating calls -/

/-- One mutating call on a dictionary. -/
inductive Op
  | add (word definition : String)
  | update (word definition : String)
  | delete (word : String)
deriving DecidableEq, Repr

/-- Perform one call, dropping the returned `error` as a caller that ignores it does. -/
def Op.apply (d : Dictionary) : Op → Except Panic Dictionary
  | .add word definition =>
    match d.Add word definition with
    | .error p => .error p
    | .ok r => .ok r.1
  | .update word definition =>
    match d.Update word definition with
    | .error p => .error p
    | .ok r => .ok r.1
  | .delete word => .ok (d.Delete word)

/-- Perform the calls of `ops` from left to right, stopping at the first panic. -/
def runOps (d : Dictionary) : List Op → Except Panic Dictionary
  | [] => .ok d
  | op :: rest =>
    match op.apply d with
    | .error p => .error p
    | .ok d' => runOps d' rest

/-- The calls `Add(word, d1)` then `Add(word, d2)` then `Search(word)`: the second `error` and
the result of the search. -/
def addAddSearch (d : Dictionary) (word d1 d2 : String) : Except Panic (error × (String × error)) :=
  match d.Add word d1 with
  | .error p => .error p
  | .ok r1 =>
    match r1.1.Add word d2 with
    | .error p => .error p
    | .ok r2 => .ok (r2.2, r2.1.Search word)

/-- The calls `Add(word, d1)` then `Update(word, d2)` then `Search(word)`: the `error` of the
update and the result of the search. -/
def addUpdateSearch (d : Dictionary) (word d1 d2 : String) :
    Except Panic (error × (String × error)) :=
  match d.Add word d1 with
  | .error p => .error p
  | .ok r1 =>
    match r1.1.Update word d2 with
    | .error p => .error p
    | .ok r2 => .ok (r2.2, r2.1.Search word)

/-- The dictionary a caller holds once a call is over: the one the call returned, or, when the
call panicked, the one it was made on, the panic being raised before anything is written. -/
def stateAfter (d : Dictionary) : Except Panic (Dictionary × error) → Dictionary
  | .ok r => r.1
  | .error _ => d

/-! ## The test helper of `maps_test.go` -/

/-- What a helper reported to its `testing.TB`. -/
inductive Report
  | silent
  | fatal (message : String)
  | errorf (got want : error)
deriving DecidableEq, Repr

/-- Go `func assertError(t testing.TB, got, want error)` of `maps_test.go`: `t.Fatal` ends the
helper, `t.Errorf` reports the two errors. -/
def assertError (got want : error) : Report :=
  if got = none then
    .fatal "expected to get an error"
  else if got ≠ want then
    .errorf got want
  else
    .silent

/-- The subtest `TestAdd/new word` up to its first report: `Add` on `Dictionary{}`, then
`assertError(t, err, nil)`. -/
def testAddNewWord : Except Panic Report :=
  match (Dictionary.made []).Add "test" "this is just a test" with
  | .error p => .error p
  | .ok r => .ok (assertError r.2 none)

/-- The subtest `TestUpdate/existing word` up to its first report: `Update` on a dictionary
holding the word, then `assertError(t, err, nil)`. -/
def testUpdateExistingWord : Except Panic Report :=
  match (Dictionary.made [("test", "this is just a test")]).Update "test" "new definition" with
  | .error p => .error p
  | .ok r => .ok (assertError r.2 none)

end Maps

/-! # Go `int`

A 64-bit two's complement integer: a mathematical integer within the range of the type, with
the arithmetic wrapping around. -/

/-- Go `int`. -/
structure GoInt where
  val : Int
  lo : -9223372036854775808 ≤ val
  hi : val ≤ 9223372036854775807
deriving DecidableEq, Repr

namespace GoInt

/-- The representative of `x` modulo `2 ^ 64` within the range of `int`. -/
def wrap (x : Int) : Int :=
  (x + 9223372036854775808) % 18446744073709551616 - 9223372036854775808

/-- Conversion of an integer constant, as in `Bitcoin(10)`. -/
def ofInt (x : Int) : GoInt :=
  ⟨wrap x, by unfold wrap; omega, by unfold wrap; omega⟩

/-- Go `a + b`. -/
def add (a b : GoInt) : GoInt := ofInt (a.val + b.val)

/-- Go `a - b`. -/
def sub (a b : GoInt) : GoInt := ofInt (a.val - b.val)

end GoInt

/-! # The `pointererrors` exercise (`src/pointererrors/wallet_test.go`) -/

namespace Pointererrors

/-- Go `type Bitcoin int`. -/
abbrev Bitcoin := GoInt

/-- The values made by `errors.New`. -/
structure WalletErr where
  text : String
deriving DecidableEq, Repr

/-- Go's `error` interface value as it occurs in this package. -/
abbrev error := Option WalletErr

def ErrInsufficientFunds : WalletErr := ⟨"cannot withdraw, insufficient funds"⟩

/-- Go `type Wallet struct { balance Bitcoin }`. -/
structure Wallet where
  balance : Bitcoin
deriving DecidableEq, Repr

namespace Wallet

/-- Go `func (w *Wallet) Deposit(amount Bitcoin)`: the wallet afterwards.  The line printed
with `fmt.Printf` is left out. -/
def Deposit (w : Wallet) (amount : Bitcoin) : Wallet :=
  { w with balance := w.balance.add amount }

/-- Go `func (w *Wallet) Withdraw(amount Bitcoin) error`: the wallet afterwards and the
returned error. -/
def Withdraw (w : Wallet) (amount : Bitcoin) : Wallet × error :=
  if amount.val > w.balance.val then
    (w, some ErrInsufficientFunds)
  else
    ({ w with balance := w.balance.sub amount }, none)

/-- Go `func (w *Wallet) Balance() Bitcoin`. -/
def Balance (w : Wallet) : Bitcoin := w.balance

end Wallet

end Pointererrors

/-! # The `helloworld` exercise (`src/helloworld/hello.go`) -/

namespace Helloworld

def spanish : String := "Spanish"

def french : String := "French"

def englishHelloPrefix : String := "Hello, "

def spanishHelloPrefix : String := "Hola, "

def frenchHelloPrefix : String := "Bonjour, "

/-- Go `func greetingPrefix(language string) (prefix string)`. -/
def greetingPrefix (language : String) : String :=
  if language = french then
    frenchHelloPrefix
  else if language = spanish then
    spanishHelloPrefix
  else
    englishHelloPrefix

/-- Go `func Hello(name string, language string) string`. -/
def Hello (name : String) (language : String) : String :=
  let name := if name = "" then "World" else name
  greetingPrefix language ++ name

end Helloworld

/-! # The `sum` exercise (`src/sum/main.go`) -/

namespace SumPkg

/-- Go `func Sum(numbers []int) int`: `sum` starts at `0` and each number is added to it in
turn. -/
def Sum (numbers : List GoInt) : GoInt :=
  numbers.foldl (fun sum number => sum.add number) (GoInt.ofInt 0)

end SumPkg

namespace Maps

/-! ## Facts about the map primitives -/

theorem lookupEntry_eq_none_iff (word : String) (l : List (String × String)) :
    lookupEntry word l = none ↔ word ∉ l.map Prod.fst := by
  induction l with
  | nil => simp [lookupEntry]
  | cons e rest ih =>
    obtain ⟨k, v⟩ := e
    by_cases hk : k = word
    · simp [lookupEntry, hk]
    · have hk' : ¬ word = k := fun h => hk h.symm
      simp [lookupEntry, hk, hk', ih]

theorem lookupEntry_isSome_of_mem (word : String) (l : List (String × String))
    (h : word ∈ l.map Prod.fst) : ∃ v, lookupEntry word l = some v := by
  cases hl : lookupEntry word l with
  | none => exact absurd ((lookupEntry_eq_none_iff word l).mp hl) (not_not.mpr h)
  | some v => exact ⟨v, rfl⟩

theorem mem_keys_removeEntry (word other : String) (l : List (String × String)) :
    other ∈ (removeEntry word l).map Prod.fst ↔ other ∈ l.map Prod.fst ∧ other ≠ word := by
  induction l with
  | nil => simp [removeEntry]
  | cons e rest ih =>
    obtain ⟨k, v⟩ := e
    by_cases hk : k = word
    · subst hk
      simp only [removeEntry, if_true, ih, List.map_cons, List.mem_cons]
      constructor
      · rintro ⟨h1, h2⟩
        exact ⟨Or.inr h1, h2⟩
      · rintro ⟨h1 | h1, h2⟩
        · exact absurd h1 h2
        · exact ⟨h1, h2⟩
    · simp only [removeEntry, hk, if_false, List.map_cons, List.mem_cons, ih]
      constructor
      · rintro (h1 | ⟨h1, h2⟩)
        · exact ⟨Or.inl h1, fun h => hk (h1 ▸ h)⟩
        · exact ⟨Or.inr h1, h2⟩
      · rintro ⟨h1 | h1, h2⟩
        · exact Or.inl h1
        · exact Or.inr ⟨h1, h2⟩

theorem lookupEntry_removeEntry_self (word : String) (l : List (String × String)) :
    lookupEntry word (removeEntry word l) = none := by
  rw [lookupEntry_eq_none_iff, mem_keys_removeEntry]
  exact fun h => h.2 rfl

theorem lookupEntry_removeEntry_of_ne (word other : String) (l : List (String × String))
    (h : other ≠ word) : lookupEntry other (removeEntry word l) = lookupEntry other l := by
  induction l with
  | nil => rfl
  | cons e rest ih =>
    obtain ⟨k, v⟩ := e
    by_cases hk : k = word
    · have hko : ¬ k = other := fun h' => h (h'.symm.trans hk)
      simp only [removeEntry, lookupEntry, hk, hko, if_true, if_false, ih]
      rw [if_neg (fun h' => h h'.symm)]
    · simp only [removeEntry, lookupEntry, hk, if_false, ih]

theorem removeEntry_of_not_mem (word : String) (l : List (String × String))
    (h : word ∉ l.map Prod.fst) : removeEntry word l = l := by
  induction l with
  | nil => rfl
  | cons e rest ih =>
    obtain ⟨k, v⟩ := e
    have hk : ¬ k = word := fun hk => h (by simp [hk])
    have hrest : word ∉ rest.map Prod.fst := fun hr => h (by simp at hr ⊢; exact Or.inr hr)
    simp only [removeEntry, hk, if_false, ih hrest]

theorem removeEntry_idem (word : String) (l : List (String × String)) :
    removeEntry word (removeEntry word l) = removeEntry word l := by
  apply removeEntry_of_not_mem
  rw [mem_keys_removeEntry]
  exact fun h => h.2 rfl

/-! ## Facts about the methods -/

theorem search_of_not_mem (d : Dictionary) (word : String) (h : word ∉ d.keys) :
    d.Search word = ("", some ErrNotFound) := by
  have hl : lookupEntry word d.entries = none := (lookupEntry_eq_none_iff word d.entries).mpr h
  simp [Dictionary.Search, Dictionary.index, hl]

theorem search_of_lookup (d : Dictionary) (word v : String)
    (h : lookupEntry word d.entries = some v) : d.Search word = (v, none) := by
  simp [Dictionary.Search, Dictionary.index, h]

theorem search_of_mem (d : Dictionary) (word : String) (h : word ∈ d.keys) :
    ∃ v, lookupEntry word d.entries = some v ∧ d.Search word = (v, none) := by
  obtain ⟨v, hv⟩ := lookupEntry_isSome_of_mem word d.entries h
  exact ⟨v, hv, search_of_lookup d word v hv⟩

theorem search_assign (l : List (String × String)) (word definition : String) :
    (Dictionary.made ((word, definition) :: removeEntry word l)).Search word
      = (definition, none) := by
  apply search_of_lookup
  simp [Dictionary.entries, lookupEntry]

theorem add_of_not_mem (l : List (String × String)) (word definition : String)
    (h : word ∉ (Dictionary.made l).keys) :
    (Dictionary.made l).Add word definition
      = .ok (Dictionary.made ((word, definition) :: removeEntry word l), none) := by
  simp [Dictionary.Add, search_of_not_mem _ _ h, Dictionary.assign]

theorem add_of_mem (d : Dictionary) (word definition : String) (h : word ∈ d.keys) :
    d.Add word definition = .ok (d, some ErrWordExists) := by
  obtain ⟨v, -, hs⟩ := search_of_mem d word h
  simp [Dictionary.Add, hs]

theorem update_of_not_mem (d : Dictionary) (word definition : String) (h : word ∉ d.keys) :
    d.Update word definition = .ok (d, some ErrWordDoesNotExist) := by
  simp [Dictionary.Update, search_of_not_mem _ _ h]

theorem update_of_mem (l : List (String × String)) (word definition : String)
    (h : word ∈ (Dictionary.made l).keys) :
    (Dictionary.made l).Update word definition
      = .ok (Dictionary.made ((word, definition) :: removeEntry word l), none) := by
  obtain ⟨v, -, hs⟩ := search_of_mem _ word h
  simp [Dictionary.Update, hs, Dictionary.assign]

theorem mem_keys_assign (l : List (String × String)) (word definition : String) :
    word ∈ (Dictionary.made ((word, definition) :: removeEntry word l)).keys := by
  simp [Dictionary.keys, Dictionary.entries]

theorem add_nil (word definition : String) :
    Dictionary.nil.Add word definition = .error Panic.assignmentToEntryInNilMap := by
  simp [Dictionary.Add, Dictionary.Search, Dictionary.index, Dictionary.entries, lookupEntry,
    Dictionary.assign]

theorem delete_of_not_mem (d : Dictionary) (word : String) (h : word ∉ d.keys) :
    d.Delete word = d := by
  cases d with
  | nil => rfl
  | made l =>
    simp only [Dictionary.Delete, Dictionary.remove]
    rw [removeEntry_of_not_mem word l h]

theorem not_mem_keys_delete (d : Dictionary) (word : String) : word ∉ (d.Delete word).keys := by
  cases d with
  | nil => simp [Dictionary.Delete, Dictionary.remove, Dictionary.keys, Dictionary.entries]
  | made l =>
    simp only [Dictionary.Delete, Dictionary.remove, Dictionary.keys, Dictionary.entries]
    rw [mem_keys_removeEntry]
    exact fun h => h.2 rfl

/-! ## Facts about sequences of calls -/

theorem apply_made (l : List (String × String)) (op : Op) :
    ∃ l1, op.apply (Dictionary.made l) = .ok (Dictionary.made l1) ∧
      ∀ w, (w ∈ (Dictionary.made l1).keys ↔
        (w ∈ (Dictionary.made l).keys ∧ op ≠ Op.delete w) ∨
          ∃ definition, op = Op.add w definition) := by
  cases op with
  | add word definition =>
    by_cases hm : word ∈ (Dictionary.made l).keys
    · refine ⟨l, by simp only [Op.apply, add_of_mem _ word definition hm], fun w => ?_⟩
      constructor
      · intro h
        exact Or.inl ⟨h, by simp⟩
      · rintro (⟨h, -⟩ | ⟨_, h⟩)
        · exact h
        · cases h
          exact hm
    · refine ⟨(word, definition) :: removeEntry word l,
        by simp only [Op.apply, add_of_not_mem l word definition hm], fun w => ?_⟩
      simp only [Dictionary.keys, Dictionary.entries, List.map_cons, List.mem_cons,
        mem_keys_removeEntry]
      constructor
      · rintro (h | ⟨h, -⟩)
        · exact Or.inr ⟨definition, by rw [h]⟩
        · exact Or.inl ⟨h, by simp⟩
      · rintro (⟨h, -⟩ | ⟨_, h⟩)
        · by_cases hw : w = word
          · exact Or.inl hw
          · exact Or.inr ⟨h, hw⟩
        · cases h
          exact Or.inl rfl
  | update word definition =>
    by_cases hm : word ∈ (Dictionary.made l).keys
    · refine ⟨(word, definition) :: removeEntry word l,
        by simp only [Op.apply, update_of_mem l word definition hm], fun w => ?_⟩
      simp only [Dictionary.keys, Dictionary.entries, List.map_cons, List.mem_cons,
        mem_keys_removeEntry]
      constructor
      · rintro (h | ⟨h, -⟩)
        · subst h
          exact Or.inl ⟨hm, by simp⟩
        · exact Or.inl ⟨h, by simp⟩
      · rintro (⟨h, -⟩ | ⟨_, h⟩)
        · by_cases hw : w = word
          · exact Or.inl hw
          · exact Or.inr ⟨h, hw⟩
        · cases h
    · refine ⟨l, by simp only [Op.apply, update_of_not_mem _ word definition hm], fun w => ?_⟩
      constructor
      · intro h
        exact Or.inl ⟨h, by simp⟩
      · rintro (⟨h, -⟩ | ⟨_, h⟩)
        · exact h
        · cases h
  | delete word =>
    refine ⟨removeEntry word l, rfl, fun w => ?_⟩
    simp only [Dictionary.keys, Dictionary.entries, mem_keys_removeEntry]
    constructor
    · rintro ⟨h, hne⟩
      exact Or.inl ⟨h, fun he => hne (by cases he; rfl)⟩
    · rintro (⟨h, hne⟩ | ⟨_, h⟩)
      · exact ⟨h, fun he => hne (by rw [he])⟩
      · cases h

theorem live_add_cons (w : String) (op : Op) (rest : List Op) :
    (∃ pre definition post, op :: rest = pre ++ Op.add w definition :: post ∧
        Op.delete w ∉ post) ↔
      ((∃ definition, op = Op.add w definition) ∧ Op.delete w ∉ rest) ∨
        ∃ pre definition post, rest = pre ++ Op.add w definition :: post ∧
          Op.delete w ∉ post := by
  constructor
  · rintro ⟨pre, definition, post, h, hn⟩
    cases pre with
    | nil =>
      simp only [List.nil_append, List.cons.injEq] at h
      obtain ⟨h1, h2⟩ := h
      exact Or.inl ⟨⟨definition, h1⟩, by rw [h2]; exact hn⟩
    | cons p pre' =>
      simp only [List.cons_append, List.cons.injEq] at h
      exact Or.inr ⟨pre', definition, post, h.2, hn⟩
  · rintro (⟨⟨definition, h1⟩, h2⟩ | ⟨pre, definition, post, h, hn⟩)
    · exact ⟨[], definition, rest, by rw [h1]; rfl, h2⟩
    · exact ⟨op :: pre, definition, post, by rw [h]; rfl, hn⟩

theorem runOps_made (w : String) (ops : List Op) :
    ∀ l, ∃ l', runOps (Dictionary.made l) ops = .ok (Dictionary.made l') ∧
      (w ∈ (Dictionary.made l').keys ↔
        (∃ pre definition post, ops = pre ++ Op.add w definition :: post ∧
            Op.delete w ∉ post) ∨
          (w ∈ (Dictionary.made l).keys ∧ Op.delete w ∉ ops)) := by
  induction ops with
  | nil =>
    intro l
    refine ⟨l, rfl, ?_⟩
    simp
  | cons op rest ih =>
    intro l
    obtain ⟨l1, hstep, hkeys⟩ := apply_made l op
    obtain ⟨l', hrun, hiff⟩ := ih l1
    refine ⟨l', by simp only [runOps, hstep, hrun], ?_⟩
    rw [hiff, hkeys w, live_add_cons]
    simp only [List.mem_cons, not_or]
    have hc : (Op.delete w ≠ op) ↔ (op ≠ Op.delete w) := ne_comm
    constructor
    · rintro (h | ⟨⟨h1, h2⟩ | h1, h3⟩)
      · exact Or.inl (Or.inr h)
      · exact Or.inr ⟨h1, hc.mpr h2, h3⟩
      · exact Or.inl (Or.inl ⟨h1, h3⟩)
    · rintro ((⟨h1, h3⟩ | h) | ⟨h1, h2, h3⟩)
      · exact Or.inr ⟨Or.inr h1, h3⟩
      · exact Or.inl h
      · exact Or.inr ⟨Or.inl ⟨h1, hc.mp h2⟩, h3⟩

/-! ## The claims about `Search`, `Add`, `Update` and `Delete` -/

/-- C1: for every dictionary and every word that is not one of its keys (the empty word
included), `Search` returns the empty definition together with `ErrNotFound`. -/
theorem search_absent (d : Dictionary) (w : String) (h : w ∉ d.keys) :
    d.Search w = ("", some ErrNotFound) :=
  search_of_not_mem d w h

theorem search_absent_witness :
    "" ∉ (Dictionary.made [("test", "this is just a test")]).keys ∧
      (Dictionary.made [("test", "this is just a test")]).Search "" = ("", some ErrNotFound) :=
  ⟨by decide, search_absent (Dictionary.made [("test", "this is just a test")]) "" (by decide)⟩

/-- C2: for every dictionary and every word that is one of its keys, `Search` returns exactly
the definition bound to the word and a nil error, also when that definition is empty. -/
theorem search_present (d : Dictionary) (w : String) (h : w ∈ d.keys) :
    ∃ v, lookupEntry w d.entries = some v ∧ d.Search w = (v, none) :=
  search_of_mem d w h

theorem search_present_witness :
    "blank" ∈ (Dictionary.made [("test", "this is just a test"), ("blank", "")]).keys ∧
      ∃ v, lookupEntry "blank"
          (Dictionary.made [("test", "this is just a test"), ("blank", "")]).entries = some v ∧
        (Dictionary.made [("test", "this is just a test"), ("blank", "")]).Search "blank"
          = (v, none) :=
  ⟨by decide,
    search_present (Dictionary.made [("test", "this is just a test"), ("blank", "")]) "blank"
      (by decide)⟩

/-- C3, as stated, fails on the `nil` dictionary: the word is absent, `Search` reports
`ErrNotFound`, and the assignment `d[word] = definition` panics, so `Add` does not return. -/
theorem add_absent_nil_panics :
    "test" ∉ Dictionary.nil.keys ∧
      Dictionary.nil.Add "test" "this is just a test"
        = .error Panic.assignmentToEntryInNilMap ∧
      ¬ ∃ d', Dictionary.nil.Add "test" "this is just a test" = .ok (d', none) ∧
          d'.Search "test" = ("this is just a test", none) := by
  refine ⟨by decide, by decide, ?_⟩
  rintro ⟨d', h, -⟩
  have e : Dictionary.nil.Add "test" "this is just a test"
      = .error Panic.assignmentToEntryInNilMap := by decide
  rw [e] at h
  exact Except.noConfusion h

/-- C3, amended: for every initialised (non-nil) dictionary, every word absent from it and
every definition, `Add` returns a nil error and afterwards `Search` of the word returns that
definition with a nil error. -/
theorem add_absent (d : Dictionary) (w definition : String) (hd : d ≠ Dictionary.nil)
    (h : w ∉ d.keys) :
    ∃ d', d.Add w definition = .ok (d', none) ∧ d'.Search w = (definition, none) := by
  cases d with
  | nil => exact absurd rfl hd
  | made l => exact ⟨_, add_of_not_mem l w definition h, search_assign l w definition⟩

theorem add_absent_witness :
    Dictionary.made [] ≠ Dictionary.nil ∧ "test" ∉ (Dictionary.made []).keys ∧
      ∃ d', (Dictionary.made []).Add "test" "this is just a test" = .ok (d', none) ∧
        d'.Search "test" = ("this is just a test", none) :=
  ⟨by decide, by decide,
    add_absent (Dictionary.made []) "test" "this is just a test" (by decide) (by decide)⟩

/-- C4: for every dictionary, every word already present and every definition, `Add` returns
`ErrWordExists` and the dictionary afterwards is the dictionary before; in particular `Search`
of the word returns what it returned before. -/
theorem add_present (d : Dictionary) (w definition : String) (h : w ∈ d.keys) :
    ∃ d', d.Add w definition = .ok (d', some ErrWordExists) ∧ d' = d ∧
      d'.Search w = d.Search w ∧ ∃ v, lookupEntry w d.entries = some v ∧ d'.Search w = (v, none) :=
  ⟨d, add_of_mem d w definition h, rfl, rfl, search_of_mem d w h⟩

theorem add_present_witness :
    "test" ∈ (Dictionary.made [("test", "this is just a test")]).keys ∧
      ∃ d', (Dictionary.made [("test", "this is just a test")]).Add "test" "new test"
          = .ok (d', some ErrWordExists) ∧
        d' = Dictionary.made [("test", "this is just a test")] ∧
        d'.Search "test" = (Dictionary.made [("test", "this is just a test")]).Search "test" ∧
        ∃ v, lookupEntry "test" (Dictionary.made [("test", "this is just a test")]).entries
            = some v ∧ d'.Search "test" = (v, none) :=
  ⟨by decide,
    add_present (Dictionary.made [("test", "this is just a test")]) "test" "new test"
      (by decide)⟩

/-- C5, as stated, fails when the word is already present with another definition: both calls
of `Add` fail with `ErrWordExists` and `Search` returns the definition from before, not `d1`. -/
theorem add_twice_present_keeps_original :
    addAddSearch (Dictionary.made [("test", "this is just a test")]) "test" "first" "second"
        = .ok (some ErrWordExists, ("this is just a test", none)) ∧
      addAddSearch (Dictionary.made [("test", "this is just a test")]) "test" "first" "second"
        ≠ .ok (some ErrWordExists, ("first", none)) :=
  ⟨by decide, by decide⟩

/-- C5, amended: for every dictionary, word and definitions `d1`, `d2`, if `Add(w, d1)` succeeds
(returns a nil error), then the following `Add(w, d2)` fails with `ErrWordExists` and `Search(w)`
returns `d1` with a nil error. -/
theorem add_twice (d s1 : Dictionary) (w d1 d2 : String) (h : d.Add w d1 = .ok (s1, none)) :
    addAddSearch d w d1 d2 = .ok (some ErrWordExists, (d1, none)) := by
  cases d with
  | nil =>
    rw [add_nil] at h
    exact Except.noConfusion h
  | made l =>
    by_cases hm : w ∈ (Dictionary.made l).keys
    · rw [add_of_mem _ w d1 hm] at h
      simp at h
    · simp only [addAddSearch, add_of_not_mem l w d1 hm,
        add_of_mem _ w d2 (mem_keys_assign l w d1), search_assign]

theorem add_twice_witness :
    (Dictionary.made []).Add "test" "first" = .ok (Dictionary.made [("test", "first")], none) ∧
      addAddSearch (Dictionary.made []) "test" "first" "second"
        = .ok (some ErrWordExists, ("first", none)) :=
  ⟨by decide,
    add_twice (Dictionary.made []) (Dictionary.made [("test", "first")]) "test" "first" "second"
      (by decide)⟩

/-- C6: for every dictionary, every word absent from it and every definition, `Update` returns
`ErrWordDoesNotExist` and the dictionary afterwards is the dictionary before, so the word is
still absent. -/
theorem update_absent (d : Dictionary) (w definition : String) (h : w ∉ d.keys) :
    ∃ d', d.Update w definition = .ok (d', some ErrWordDoesNotExist) ∧ d' = d ∧ w ∉ d'.keys :=
  ⟨d, update_of_not_mem d w definition h, rfl, h⟩

theorem update_absent_witness :
    "test" ∉ (Dictionary.made [("other", "kept")]).keys ∧
      ∃ d', (Dictionary.made [("other", "kept")]).Update "test" "this is just a test"
          = .ok (d', some ErrWordDoesNotExist) ∧
        d' = Dictionary.made [("other", "kept")] ∧ "test" ∉ d'.keys :=
  ⟨by decide,
    update_absent (Dictionary.made [("other", "kept")]) "test" "this is just a test" (by decide)⟩

/-- C7, as stated, fails on the `nil` dictionary: `Add` panics on the assignment, so no
`Update` follows it and nothing is returned. -/
theorem add_update_nil_panics :
    addUpdateSearch Dictionary.nil "test" "this is just a test" "new definition"
        = .error Panic.assignmentToEntryInNilMap ∧
      addUpdateSearch Dictionary.nil "test" "this is just a test" "new definition"
        ≠ .ok (none, ("new definition", none)) :=
  ⟨by decide, by decide⟩

/-- C7, amended: for every initialised (non-nil) dictionary, word and definitions `d1`, `d2`,
after `Add(w, d1)`, whether it returned nil or `ErrWordExists`, `Update(w, d2)` returns a nil
error and `Search(w)` then returns `d2` with a nil error. -/
theorem add_then_update (d : Dictionary) (w d1 d2 : String) (hd : d ≠ Dictionary.nil) :
    addUpdateSearch d w d1 d2 = .ok (none, (d2, none)) := by
  cases d with
  | nil => exact absurd rfl hd
  | made l =>
    by_cases hm : w ∈ (Dictionary.made l).keys
    · simp only [addUpdateSearch, add_of_mem _ w d1 hm, update_of_mem l w d2 hm, search_assign]
    · simp only [addUpdateSearch, add_of_not_mem l w d1 hm,
        update_of_mem _ w d2 (mem_keys_assign l w d1), search_assign]

theorem add_then_update_witness :
    Dictionary.made [("test", "this is just a test")] ≠ Dictionary.nil ∧
      addUpdateSearch (Dictionary.made [("test", "this is just a test")]) "test" "ignored"
        "new definition" = .ok (none, ("new definition", none)) :=
  ⟨by decide,
    add_then_update (Dictionary.made [("test", "this is just a test")]) "test" "ignored"
      "new definition" (by decide)⟩

/-- C8: for every dictionary and word, if the word is absent then the dictionary after
`Delete` is the dictionary before, and if the word is present then `Search` of it after
`Delete` fails with `ErrNotFound`. -/
theorem delete_spec (d : Dictionary) (w : String) :
    (w ∉ d.keys → d.Delete w = d) ∧
      (w ∈ d.keys → (d.Delete w).Search w = ("", some ErrNotFound)) :=
  ⟨delete_of_not_mem d w, fun _ => search_of_not_mem _ w (not_mem_keys_delete d w)⟩

theorem delete_spec_witness :
    ("unknown" ∉ (Dictionary.made [("test", "test definition")]).keys ∧
        (Dictionary.made [("test", "test definition")]).Delete "unknown"
          = Dictionary.made [("test", "test definition")]) ∧
      ("test" ∈ (Dictionary.made [("test", "test definition")]).keys ∧
        ((Dictionary.made [("test", "test definition")]).Delete "test").Search "test"
          = ("", some ErrNotFound)) :=
  ⟨⟨by decide,
      (delete_spec (Dictionary.made [("test", "test definition")]) "unknown").1 (by decide)⟩,
    ⟨by decide,
      (delete_spec (Dictionary.made [("test", "test definition")]) "test").2 (by decide)⟩⟩

/-- C9: `Delete` is idempotent: for every dictionary and word, the dictionary after two
successive calls `Delete(w)` equals the dictionary after one. -/
theorem delete_idempotent (d : Dictionary) (w : String) :
    (d.Delete w).Delete w = d.Delete w :=
  delete_of_not_mem (d.Delete w) w (not_mem_keys_delete d w)

/-- C10: starting from the dictionary created empty (`Dictionary{}`), every finite sequence of
`Add`, `Update` and `Delete` calls runs to the end, and a word is a key of the final dictionary
if and only if the sequence contains an `Add` of that word with no `Delete` of it later on. -/
theorem present_iff_added_not_deleted (ops : List Op) (w : String) :
    ∃ d, runOps (Dictionary.made []) ops = .ok d ∧
      (w ∈ d.keys ↔
        ∃ pre definition post, ops = pre ++ Op.add w definition :: post ∧
          Op.delete w ∉ post) := by
  obtain ⟨l', hrun, hiff⟩ := runOps_made w ops []
  refine ⟨Dictionary.made l', hrun, ?_⟩
  rw [hiff]
  simp [Dictionary.keys, Dictionary.entries]

/-! ## Error ranges, the frame of the calls, and the test helper -/

theorem search_error_cases (d : Dictionary) (word : String) :
    (d.Search word).2 = none ∨ (d.Search word).2 = some ErrNotFound := by
  by_cases hm : word ∈ d.keys
  · obtain ⟨v, -, hs⟩ := search_of_mem d word hm
    exact Or.inl (by rw [hs])
  · exact Or.inr (by rw [search_of_not_mem d word hm])

theorem search_eq_of_lookup_eq (d1 d2 : Dictionary) (word : String)
    (h : lookupEntry word d1.entries = lookupEntry word d2.entries) :
    d1.Search word = d2.Search word := by
  simp only [Dictionary.Search, Dictionary.index, h]

theorem search_assign_of_ne (l : List (String × String)) (word definition other : String)
    (h : other ≠ word) :
    (Dictionary.made ((word, definition) :: removeEntry word l)).Search other
      = (Dictionary.made l).Search other := by
  apply search_eq_of_lookup_eq
  have hw : ¬ word = other := fun e => h e.symm
  simp only [Dictionary.entries, lookupEntry, hw, if_false]
  exact lookupEntry_removeEntry_of_ne word other l h

theorem assertError_silent_iff (got want : error) :
    assertError got want = Report.silent ↔ got ≠ none ∧ got = want := by
  unfold assertError
  by_cases hg : got = none
  · simp [hg]
  · by_cases hw : got = want
    · simp [hg, hw]
    · simp [hg, hw]

/-- C11: for every dictionary and word, `Search` returns a nil error or `ErrNotFound`, so the
guard of the `default` arm of the switch in `Add` and `Update` never holds; `Add` either
returns nil, or returns `ErrWordExists`, or (on the `nil` map only) panics and returns nothing;
`Update` always returns, with nil or `ErrWordDoesNotExist`. -/
theorem error_ranges (d : Dictionary) (w definition : String) :
    ((d.Search w).2 = none ∨ (d.Search w).2 = some ErrNotFound) ∧
      ¬ ((d.Search w).2 ≠ some ErrNotFound ∧ (d.Search w).2 ≠ none) ∧
      ((∃ d', d.Add w definition = .ok (d', none)) ∨
        d.Add w definition = .ok (d, some ErrWordExists) ∨
        (d = Dictionary.nil ∧
          d.Add w definition = .error Panic.assignmentToEntryInNilMap)) ∧
      ((∃ d', d.Update w definition = .ok (d', none)) ∨
        d.Update w definition = .ok (d, some ErrWordDoesNotExist)) := by
  refine ⟨search_error_cases d w, ?_, ?_, ?_⟩
  · rintro ⟨h1, h2⟩
    rcases search_error_cases d w with h | h
    · exact h2 h
    · exact h1 h
  · by_cases hm : w ∈ d.keys
    · exact Or.inr (Or.inl (add_of_mem d w definition hm))
    · cases d with
      | nil => exact Or.inr (Or.inr ⟨rfl, add_nil w definition⟩)
      | made l => exact Or.inl ⟨_, add_of_not_mem l w definition hm⟩
  · by_cases hm : w ∈ d.keys
    · cases d with
      | nil => simp [Dictionary.keys, Dictionary.entries] at hm
      | made l => exact Or.inl ⟨_, update_of_mem l w definition hm⟩
    · exact Or.inr (update_of_not_mem d w definition hm)

/-- C17: on `got = nil` and `want = nil` the helper `assertError` of `maps_test.go` calls
`t.Fatal`; the subtests `TestAdd/new word` and `TestUpdate/existing word`, where `Add` and
`Update` return nil, therefore end in that report. -/
theorem assertError_nil_nil_reports :
    assertError none none = Report.fatal "expected to get an error" ∧
      testAddNewWord = .ok (Report.fatal "expected to get an error") ∧
      testUpdateExistingWord = .ok (Report.fatal "expected to get an error") :=
  ⟨by decide, by decide, by decide⟩

/-- C18: for every dictionary, word `w`, definition and word `v` other than `w`, `Search(v)`
returns the same after `Add(w, def)`, after `Update(w, def)` and after `Delete(w)` as before,
whatever the outcome of the call. -/
theorem other_words_untouched (d : Dictionary) (w definition v : String) (h : v ≠ w) :
    (stateAfter d (d.Add w definition)).Search v = d.Search v ∧
      (stateAfter d (d.Update w definition)).Search v = d.Search v ∧
      (d.Delete w).Search v = d.Search v := by
  cases d with
  | nil =>
    refine ⟨?_, ?_, rfl⟩
    · rw [add_nil]
      rfl
    · rw [update_of_not_mem _ w definition (by simp [Dictionary.keys, Dictionary.entries])]
      rfl
  | made l =>
    refine ⟨?_, ?_, ?_⟩
    · by_cases hm : w ∈ (Dictionary.made l).keys
      · rw [add_of_mem _ w definition hm]
        rfl
      · rw [add_of_not_mem l w definition hm]
        exact search_assign_of_ne l w definition v h
    · by_cases hm : w ∈ (Dictionary.made l).keys
      · rw [update_of_mem l w definition hm]
        exact search_assign_of_ne l w definition v h
      · rw [update_of_not_mem _ w definition hm]
        rfl
    · apply search_eq_of_lookup_eq
      exact lookupEntry_removeEntry_of_ne w v l h

theorem other_words_untouched_witness :
    "kept" ≠ "test" ∧
      (stateAfter (Dictionary.made [("kept", "as it was")])
          ((Dictionary.made [("kept", "as it was")]).Add "test" "this is just a test")).Search
          "kept" = (Dictionary.made [("kept", "as it was")]).Search "kept" ∧
      (stateAfter (Dictionary.made [("kept", "as it was")])
          ((Dictionary.made [("kept", "as it was")]).Update "test" "this is just a test")).Search
          "kept" = (Dictionary.made [("kept", "as it was")]).Search "kept" ∧
      ((Dictionary.made [("kept", "as it was")]).Delete "test").Search "kept"
        = (Dictionary.made [("kept", "as it was")]).Search "kept" :=
  ⟨by decide,
    other_words_untouched (Dictionary.made [("kept", "as it was")]) "test"
      "this is just a test" "kept" (by decide)⟩

/-- C19: `Update` always returns, and for every dictionary, word and definition the words
present after `Update(w, def)` are exactly the words present before, whether it returned nil
or `ErrWordDoesNotExist`. -/
theorem update_keeps_keys (d : Dictionary) (w definition : String) :
    ∃ d' e, d.Update w definition = .ok (d', e) ∧ ∀ v, v ∈ d'.keys ↔ v ∈ d.keys := by
  by_cases hm : w ∈ d.keys
  · cases d with
    | nil => simp [Dictionary.keys, Dictionary.entries] at hm
    | made l =>
      refine ⟨_, _, update_of_mem l w definition hm, fun v => ?_⟩
      simp only [Dictionary.keys, Dictionary.entries, List.map_cons, List.mem_cons,
        mem_keys_removeEntry]
      constructor
      · rintro (hv | ⟨hv, -⟩)
        · rw [hv]
          exact hm
        · exact hv
      · intro hv
        by_cases hw : v = w
        · exact Or.inl hw
        · exact Or.inr ⟨hv, hw⟩
  · exact ⟨d, _, update_of_not_mem d w definition hm, fun _ => Iff.rfl⟩

end Maps

/-! # Facts about Go `int` -/

namespace GoInt

theorem eq_of_val_eq (a b : GoInt) (h : a.val = b.val) : a = b := by
  cases a
  cases b
  simp only [GoInt.mk.injEq]
  exact h

theorem wrap_of_inRange (x : Int) (hlo : -9223372036854775808 ≤ x)
    (hhi : x ≤ 9223372036854775807) : wrap x = x := by
  unfold wrap
  omega

theorem wrap_add_wrap (a b : Int) : wrap (wrap a + b) = wrap (a + b) := by
  unfold wrap
  omega

theorem ofInt_val (a : GoInt) : ofInt a.val = a :=
  eq_of_val_eq _ _ (wrap_of_inRange a.val a.lo a.hi)

theorem add_val (a b : GoInt) : (a.add b).val = wrap (a.val + b.val) := rfl

theorem sub_val (a b : GoInt) : (a.sub b).val = wrap (a.val - b.val) := rfl

end GoInt

/-! # The claims about the wallet -/

namespace Pointererrors

/-- C12: for every wallet and every amount strictly greater than its balance, `Withdraw`
returns `ErrInsufficientFunds` and the wallet, hence its balance, is as before. -/
theorem withdraw_insufficient (w : Wallet) (amount : Bitcoin)
    (h : w.Balance.val < amount.val) :
    (w.Withdraw amount).2 = some ErrInsufficientFunds ∧
      (w.Withdraw amount).1.Balance = w.Balance := by
  have h' : amount.val > w.balance.val := h
  simp only [Wallet.Withdraw, h', if_true, and_self]

theorem withdraw_insufficient_witness :
    (Wallet.mk (GoInt.ofInt 20)).Balance.val < (GoInt.ofInt 100).val ∧
      ((Wallet.mk (GoInt.ofInt 20)).Withdraw (GoInt.ofInt 100)).2 = some ErrInsufficientFunds ∧
      ((Wallet.mk (GoInt.ofInt 20)).Withdraw (GoInt.ofInt 100)).1.Balance
        = (Wallet.mk (GoInt.ofInt 20)).Balance :=
  ⟨by decide, withdraw_insufficient (Wallet.mk (GoInt.ofInt 20)) (GoInt.ofInt 100) (by decide)⟩

/-- C13, as stated, fails for a negative amount whose subtraction overflows: on the wallet
holding the largest `int`, `Withdraw(-1)` passes the threshold check, returns a nil error and
leaves the smallest `int` as balance, not the balance before minus the amount. -/
theorem withdraw_negative_amount_wraps :
    (GoInt.ofInt (-1)).val ≤ (Wallet.mk (GoInt.ofInt 9223372036854775807)).Balance.val ∧
      ((Wallet.mk (GoInt.ofInt 9223372036854775807)).Withdraw (GoInt.ofInt (-1))).2 = none ∧
      ((Wallet.mk (GoInt.ofInt 9223372036854775807)).Withdraw (GoInt.ofInt (-1))).1.Balance.val
        = -9223372036854775808 ∧
      ((Wallet.mk (GoInt.ofInt 9223372036854775807)).Withdraw (GoInt.ofInt (-1))).1.Balance.val
        ≠ (Wallet.mk (GoInt.ofInt 9223372036854775807)).Balance.val - (GoInt.ofInt (-1)).val :=
  ⟨by decide, by decide, by decide, by decide⟩

/-- C13, amended: for every wallet and every amount not greater than its balance, `Withdraw`
returns a nil error and the balance afterwards is the balance before minus the amount in the
wrapping subtraction of Go `int`; it is the exact difference whenever that does not exceed the
largest `int`, as is the case for every amount that is not negative. -/
theorem withdraw_with_funds (w : Wallet) (amount : Bitcoin)
    (h : amount.val ≤ w.Balance.val) :
    (w.Withdraw amount).2 = none ∧
      (w.Withdraw amount).1.Balance = w.Balance.sub amount ∧
      (w.Withdraw amount).1.Balance.val = GoInt.wrap (w.Balance.val - amount.val) ∧
      (w.Balance.val - amount.val ≤ 9223372036854775807 →
        (w.Withdraw amount).1.Balance.val = w.Balance.val - amount.val) ∧
      (0 ≤ amount.val → (w.Withdraw amount).1.Balance.val = w.Balance.val - amount.val) := by
  have h' : ¬ amount.val > w.balance.val := not_lt.mpr h
  have hb : w.Balance.val = w.balance.val := rfl
  have e : w.Withdraw amount = ({ w with balance := w.balance.sub amount }, none) := by
    simp only [Wallet.Withdraw, h', if_false]
  have hlo := w.balance.lo
  have hhi := w.balance.hi
  have alo := amount.lo
  have ahi := amount.hi
  rw [e]
  refine ⟨rfl, rfl, rfl, ?_, ?_⟩
  · intro hr
    show GoInt.wrap (w.balance.val - amount.val) = w.balance.val - amount.val
    rw [hb] at hr h
    exact GoInt.wrap_of_inRange _ (by omega) hr
  · intro ha
    show GoInt.wrap (w.balance.val - amount.val) = w.balance.val - amount.val
    rw [hb] at h
    exact GoInt.wrap_of_inRange _ (by omega) (by omega)

theorem withdraw_with_funds_witness :
    (GoInt.ofInt 10).val ≤ (Wallet.mk (GoInt.ofInt 20)).Balance.val ∧
      ((Wallet.mk (GoInt.ofInt 20)).Withdraw (GoInt.ofInt 10)).2 = none ∧
      ((Wallet.mk (GoInt.ofInt 20)).Withdraw (GoInt.ofInt 10)).1.Balance
        = (Wallet.mk (GoInt.ofInt 20)).Balance.sub (GoInt.ofInt 10) ∧
      ((Wallet.mk (GoInt.ofInt 20)).Withdraw (GoInt.ofInt 10)).1.Balance.val = 10 :=
  ⟨by decide,
    (withdraw_with_funds (Wallet.mk (GoInt.ofInt 20)) (GoInt.ofInt 10) (by decide)).1,
    (withdraw_with_funds (Wallet.mk (GoInt.ofInt 20)) (GoInt.ofInt 10) (by decide)).2.1,
    (withdraw_with_funds (Wallet.mk (GoInt.ofInt 20)) (GoInt.ofInt 10) (by decide)).2.2.2.2
      (by decide)⟩

/-- C14: for every wallet and amount the balance after `Deposit` is the balance before plus
the amount in Go `int` addition, wrapping modulo `2 ^ 64`; on the zero wallet `Wallet{}`,
`Deposit(a)` yields the balance `a`. -/
theorem deposit_balance (w : Wallet) (amount : Bitcoin) :
    (w.Deposit amount).Balance = w.Balance.add amount ∧
      (w.Deposit amount).Balance.val = GoInt.wrap (w.Balance.val + amount.val) ∧
      ((Wallet.mk (GoInt.ofInt 0)).Deposit amount).Balance = amount := by
  refine ⟨rfl, rfl, ?_⟩
  apply GoInt.eq_of_val_eq
  show GoInt.wrap ((GoInt.ofInt 0).val + amount.val) = amount.val
  have h0 : (GoInt.ofInt 0).val = 0 := by decide
  rw [h0, zero_add]
  exact GoInt.wrap_of_inRange _ amount.lo amount.hi

/-- C20: for every wallet with a non-negative balance and every non-negative amount, the
balance after `Withdraw`, whether it returned nil or `ErrInsufficientFunds`, is non-negative
and not greater than the balance before. -/
theorem withdraw_keeps_nonneg (w : Wallet) (amount : Bitcoin) (hb : 0 ≤ w.Balance.val)
    (ha : 0 ≤ amount.val) :
    0 ≤ (w.Withdraw amount).1.Balance.val ∧
      (w.Withdraw amount).1.Balance.val ≤ w.Balance.val := by
  have hb' : 0 ≤ w.balance.val := hb
  have hhi := w.balance.hi
  by_cases h : amount.val > w.balance.val
  · simp only [Wallet.Withdraw, h, if_true, Wallet.Balance]
    exact ⟨hb', le_refl _⟩
  · simp only [Wallet.Withdraw, h, if_false, Wallet.Balance, GoInt.sub_val]
    rw [GoInt.wrap_of_inRange _ (by omega) (by omega)]
    constructor <;> omega

theorem withdraw_keeps_nonneg_witness :
    0 ≤ (Wallet.mk (GoInt.ofInt 20)).Balance.val ∧ 0 ≤ (GoInt.ofInt 10).val ∧
      0 ≤ ((Wallet.mk (GoInt.ofInt 20)).Withdraw (GoInt.ofInt 10)).1.Balance.val ∧
      ((Wallet.mk (GoInt.ofInt 20)).Withdraw (GoInt.ofInt 10)).1.Balance.val
        ≤ (Wallet.mk (GoInt.ofInt 20)).Balance.val :=
  ⟨by decide, by decide,
    withdraw_keeps_nonneg (Wallet.mk (GoInt.ofInt 20)) (GoInt.ofInt 10) (by decide)
      (by decide)⟩

end Pointererrors

/-! # The claim about `Hello` -/

namespace Helloworld

theorem french_ne_spanish : french ≠ spanish := by decide

/-- C15: for every name and language, `Hello(name, language)` is the greeting for the
language, `"Hola, "` for `"Spanish"`, `"Bonjour, "` for `"French"` and `"Hello, "` for any
other one, followed by `"World"` when the name is empty and by the name otherwise. -/
theorem hello_spec (name language : String) :
    Hello name language =
      (if language = "Spanish" then "Hola, "
        else if language = "French" then "Bonjour, "
        else "Hello, ") ++ (if name = "" then "World" else name) := by
  have hfs : ¬ ("French" = "Spanish") := by decide
  unfold Hello greetingPrefix french spanish frenchHelloPrefix spanishHelloPrefix
    englishHelloPrefix
  by_cases hf : language = "French"
  · subst hf
    simp only [if_true, hfs, if_false]
  · by_cases hs : language = "Spanish"
    · subst hs
      simp only [if_true, hf, if_false]
    · simp only [hf, hs, if_false]

end Helloworld

/-! # The claim about `Sum` -/

namespace SumPkg

theorem foldl_add_val (numbers : List GoInt) :
    ∀ acc : GoInt,
      (numbers.foldl (fun sum number => sum.add number) acc).val
        = GoInt.wrap (acc.val + (numbers.map GoInt.val).sum) := by
  induction numbers with
  | nil =>
    intro acc
    simp only [List.foldl_nil, List.map_nil, List.sum_nil, add_zero]
    exact (GoInt.wrap_of_inRange acc.val acc.lo acc.hi).symm
  | cons x rest ih =>
    intro acc
    simp only [List.foldl_cons, List.map_cons, List.sum_cons]
    rw [ih (acc.add x), GoInt.add_val, GoInt.wrap_add_wrap, add_assoc]

/-- C16: for every slice of integers, `Sum` returns the sum of all its elements in Go `int`
arithmetic, that is the mathematical sum reduced modulo `2 ^ 64` into the range of `int`;
it returns `0` for the empty slice. -/
theorem sum_spec (numbers : List GoInt) :
    (SumPkg.Sum numbers).val = GoInt.wrap (numbers.map GoInt.val).sum ∧
      SumPkg.Sum [] = GoInt.ofInt 0 ∧ (SumPkg.Sum []).val = 0 := by
  refine ⟨?_, rfl, by decide⟩
  unfold SumPkg.Sum
  rw [foldl_add_val]
  have h0 : (GoInt.ofInt 0).val = 0 := by decide
  rw [h0, zero_add]

end SumPkg
